import Mathlib

/-!
Verification of the AIShield network-anomaly-detection pipeline.

This file gives a shallow embedding of the pipeline implemented in
`main.py` (class `NetworkAnomalyDetector`) and of the synthetic traffic
generator in `generate_sample_data.py`, and proves the specified
properties about it.

Modelling conventions:
- a pandas DataFrame is a list of named columns; a cell is a rational
  number, a string, or `na` (NaN / missing);
- Python floats are modelled as exact rationals;
- the isolation-forest scoring engine itself lives in the external
  sklearn library, outside this repository; it is modelled from the
  spec (section 4.4), as marked on the individual definitions;
- fallible steps return `Except`; a raised Python exception is an
  `Except.error`.
-/

namespace AIShield

/-- Cell of a data table: numeric value, string value, or missing (NaN). -/
inductive Cell where
  | num (q : ℚ)
  | str (s : String)
  | na
deriving DecidableEq

/-- A data table (pandas DataFrame): ordered association list of named columns.
Assignment to an existing column replaces it in place; assignment to a fresh
name appends the column at the end, as in pandas. -/
abbrev DF := List (String × List Cell)

/-- Names of the columns of a table, in order. -/
def colNames (df : DF) : List String := df.map (fun p => p.1)

/-- Number of rows of a table (`len(df)`). -/
def numRows (df : DF) : ℕ :=
  match df with
  | [] => 0
  | p :: _ => p.2.length

/-- Look up a column by name (first match, as pandas column access). -/
def getCol (df : DF) (c : String) : Option (List Cell) :=
  (df.find? (fun p => p.1 = c)).map (fun p => p.2)

/-- Column assignment `df[c] = col`: replaces an existing column in place,
otherwise appends the new column at the end. -/
def setCol (df : DF) (c : String) (col : List Cell) : DF :=
  if df.any (fun p => p.1 = c) then
    df.map (fun p => if p.1 = c then (c, col) else p)
  else
    df ++ [(c, col)]

/-- Numeric content of a cell, `none` for strings and missing values. -/
def cellNum : Cell → Option ℚ
  | .num q => some q
  | .str _ => none
  | .na => none

/-- The present (non-missing, numeric) values of a column, in order. -/
def presentVals (col : List Cell) : List ℚ := col.filterMap cellNum

/-- Arithmetic mean of a list of rationals (0 for the empty list,
matching the convention that division by zero is zero). -/
def listMean (xs : List ℚ) : ℚ := xs.sum / xs.length

/-- Population variance (`ddof = 0`, as used by sklearn StandardScaler). -/
def pvariance (xs : List ℚ) : ℚ := listMean (xs.map (fun x => (x - listMean xs) ^ 2))

/-- Configuration of the detector, from `config.json` or the defaults
in `NetworkAnomalyDetector.load_config`. -/
structure Config where
  features : List String
  contamination : ℚ
  n_estimators : ℕ
  random_state : ℕ
deriving DecidableEq

/-- The hard-coded `default_config` of `load_config` in `main.py`. -/
def default_config : Config :=
  { features := ["feature1", "feature2", "feature3"]
    contamination := 1 / 20
    n_estimators := 100
    random_state := 42 }

/-- State of the external configuration source: the file is absent, the file
exists but is not valid JSON, or it parses to a configuration. -/
inductive ConfigSource where
  | absent
  | unparseable
  | parsed (c : Config)

/-- Embedding of `NetworkAnomalyDetector.load_config`: `open` raising
`FileNotFoundError` is caught and yields the defaults plus a logged warning
(the Bool component); `json.load` raising `JSONDecodeError` on an unparseable
file is NOT caught and propagates as an error; a parsed file is returned
as-is with no warning. -/
def load_config : ConfigSource → Except String (Config × Bool)
  | .absent => .ok (default_config, true)
  | .unparseable => .error ("JSONDecodeError")
  | .parsed c => .ok (c, false)

/-- Embedding of `NetworkAnomalyDetector._validate_data`: computes the set
difference `set(config.features) - set(df.columns)` and raises `ValueError`
carrying the missing names when it is non-empty. -/
def validate_data (cfg : Config) (df : DF) : Except (List String) Unit :=
  let missing := cfg.features.filter (fun f => decide (f ∉ colNames df))
  if missing.isEmpty then .ok () else .error missing

/-- Fill the missing values of one column with the mean of its present
values (`fillna(mean)` in pandas): if the column has no present value its
mean is NaN and `fillna` leaves the column unchanged; otherwise every `na`
cell becomes the mean and all other cells are untouched. -/
def fillCol (col : List Cell) : List Cell :=
  let p := presentVals col
  if p.isEmpty then col
  else col.map (fun c => if c = Cell.na then Cell.num (listMean p) else c)

/-- Embedding of `NetworkAnomalyDetector._handle_missing_values`:
`df[features] = df[features].fillna(df[features].mean())`, which rewrites
only the configured feature columns; the Bool component records whether the
`missing_stats.any()` warning was logged. -/
def handle_missing_values (cfg : Config) (df : DF) : DF × Bool :=
  (df.map (fun p => if p.1 ∈ cfg.features then (p.1, fillCol p.2) else p),
   cfg.features.any (fun f => ((getCol df f).getD []).any (fun c => decide (c = Cell.na))))

/-- Scale one column as sklearn StandardScaler does: subtract the column
mean and divide by the scale `s`, where a zero scale (constant column) is
replaced by 1 (`_handle_zeros_in_scale`), so a constant column maps to all
zeros. The caller supplies the scale `s`; theorems constrain it by
`s ^ 2 = pvariance xs`, the exact-arithmetic meaning of the float
`sqrt(var)` computed by the scaler. -/
def scaleColumn (xs : List ℚ) (s : ℚ) : List ℚ :=
  let m := listMean xs
  let s' := if s = 0 then 1 else s
  xs.map (fun x => (x - m) / s')

/-- A column fit for scaling: every cell numeric (no NaN, no string). -/
def featAllNum (col : List Cell) : Bool := col.all (fun c => (cellNum c).isSome)

/-- Embedding of `NetworkAnomalyDetector._scale_features`:
`df[features] = scaler.fit_transform(df[features])`. sklearn raises
`ValueError` when the selected data still contains NaN (or non-numeric)
values; otherwise each configured feature column is standardized in place
and all other columns are untouched. `sigmas` supplies the per-column scale
(see `scaleColumn`). -/
def scale_features (cfg : Config) (sigmas : String → ℚ) (df : DF) : Except String DF :=
  if df.all (fun p => !(decide (p.1 ∈ cfg.features)) || featAllNum p.2) then
    .ok (df.map (fun p =>
      if p.1 ∈ cfg.features then
        (p.1, (scaleColumn (presentVals p.2) (sigmas p.1)).map Cell.num)
      else p))
  else .error ("Input contains NaN")

/-- Name of the label column added by the detector. -/
def anomalyCol : String := "anomaly"

/-- Name of the score column added by the detector. -/
def scoreCol : String := "anomaly_score"

/-- Label of a record flagged as anomalous. -/
def anomalyLabel : String := "Anomaly"

/-- Label of a record considered normal. -/
def normalLabel : String := "Normal"

/-! Isolation-forest scorer.

`detect_anomalies` in `main.py` delegates fitting, scoring and labeling to
`sklearn.ensemble.IsolationForest`, whose implementation is external to the
repository. The scorer below is modelled from the spec, section 4.4: seeded
deterministic construction of randomized axis-aligned partition trees over a
capped random sub-sample, per-record path lengths with the standard residual
leaf correction, scores averaged over the ensemble (shorter average path,
i.e. lower score, means more anomalous), and labeling of the
`contamination` fraction of lowest-scoring records. -/

/-- Linear congruential pseudo-random step on a 32-bit state. All
randomness of the scorer is driven through this map from
`config.random_state`, as the spec requires. -/
def lcgNext (s : ℕ) : ℕ := (1664525 * s + 1013904223) % 4294967296

/-- Draw `k` distinct positions from a pool without replacement, threading
the PRNG state (sub-sampling of records for one tree). -/
def sampleIdx : ℕ → List ℕ → ℕ → List ℕ × ℕ
  | 0, _, s => ([], s)
  | k + 1, pool, s =>
    let s1 := lcgNext s
    let i := s1 % pool.length
    let x := pool.getD i 0
    let (rest, s2) := sampleIdx k (pool.eraseIdx i) s1
    (x :: rest, s2)

/-- Filter by a decidable predicate, recursively (keeps the condition a
proposition, which the proofs below resolve arithmetically). -/
def qfilter {α : Type} (p : α → Prop) [DecidablePred p] : List α → List α
  | [] => []
  | a :: t => if p a then a :: qfilter p t else qfilter p t

/-- Isolation tree: internal nodes store a feature index and a random split
threshold, leaves store their residual record count. -/
inductive ITree where
  | leaf (count : ℕ)
  | node (feat : ℕ) (thr : ℚ) (l r : ITree)
deriving DecidableEq

/-- Minimum of a list of rationals (0 for the empty list). -/
def listMinQ : List ℚ → ℚ
  | [] => 0
  | a :: t => t.foldl min a

/-- Maximum of a list of rationals (0 for the empty list). -/
def listMaxQ : List ℚ → ℚ
  | [] => 0
  | a :: t => t.foldl max a

/-- Modelled from the spec (4.4): recursive tree construction. Stop with a
leaf when the node holds at most one record or the depth limit (the fuel) is
reached; otherwise pick a feature pseudo-randomly, pick a threshold strictly
between the observed minimum and maximum of that feature (a constant feature
slice cannot be split and closes the node), partition and recurse. `nf` is
the number of configured features. -/
def buildTree (nf : ℕ) : ℕ → List (List ℚ) → ℕ → ITree × ℕ
  | 0, rows, s => (.leaf rows.length, s)
  | fuel + 1, rows, s =>
    if rows.length ≤ 1 then (.leaf rows.length, s)
    else
      let s1 := lcgNext s
      let fi := s1 % nf
      let vals := rows.map (fun r => r.getD fi 0)
      let lo := listMinQ vals
      let hi := listMaxQ vals
      if lo = hi then (.leaf rows.length, s1)
      else
        let s2 := lcgNext s1
        let thr := lo + (hi - lo) * (((s2 : ℚ) + 1) / 4294967297)
        let (lt, s3) := buildTree nf fuel (qfilter (fun r => r.getD fi 0 < thr) rows) s2
        let (rt, s4) := buildTree nf fuel (qfilter (fun r => ¬(r.getD fi 0 < thr)) rows) s3
        (.node fi thr lt rt, s4)

/-- Harmonic number as a rational. -/
def harmonicQ : ℕ → ℚ
  | 0 => 0
  | n + 1 => harmonicQ n + 1 / (n + 1)

/-- Average unsuccessful-search path length of a binary search tree over `m`
records: the standard isolation-forest correction for a leaf holding `m`
records, `2 H(m-1) - 2 (m-1)/m`, zero for `m ≤ 1`. -/
def cFactor (m : ℕ) : ℚ :=
  if m ≤ 1 then 0 else 2 * harmonicQ (m - 1) - 2 * ((m : ℚ) - 1) / m

/-- Path length of a record in a tree: edges traversed from the root,
descending by comparing the record against each stored threshold, plus the
residual correction of the reached leaf. -/
def pathLen : ITree → List ℚ → ℚ
  | .leaf m, _ => cFactor m
  | .node fi thr l r, row =>
    1 + (if row.getD fi 0 < thr then pathLen l row else pathLen r row)

/-- Floor of the base-2 logarithm, by explicit fuel so that it computes
structurally. -/
def floorLog2Fuel : ℕ → ℕ → ℕ
  | 0, _ => 0
  | f + 1, n => if 2 ≤ n then floorLog2Fuel f (n / 2) + 1 else 0

/-- Ceiling of the base-2 logarithm: the tree depth limit is derived from
the log2 of the sub-sample size. -/
def ceilLog2 (n : ℕ) : ℕ := if n ≤ 1 then 0 else floorLog2Fuel n (n - 1) + 1

/-- Build `k` trees in sequence, threading the PRNG state: each tree is fit
on a fresh pseudo-random sub-sample of the records. -/
def buildForestAux (cfg : Config) (m : List (List ℚ)) (ssize depthL : ℕ) :
    ℕ → ℕ → List ITree
  | 0, _ => []
  | k + 1, s =>
    let (idxs, s1) := sampleIdx ssize (List.range m.length) s
    let sub := idxs.map (fun i => m.getD i [])
    let (t, s2) := buildTree cfg.features.length depthL sub s1
    t :: buildForestAux cfg m ssize depthL k s2

/-- Modelled from the spec (4.4): build `config.n_estimators` trees, each
over a sub-sample of the records capped at 256 (the standard isolation
forest cap), threading a single PRNG state seeded by `config.random_state`. -/
def buildForest (cfg : Config) (m : List (List ℚ)) : List ITree :=
  buildForestAux cfg m (min 256 m.length) (ceilLog2 (min 256 m.length))
    cfg.n_estimators cfg.random_state

/-- Score of a record: its path length averaged over the ensemble. Lower
score means the record isolates in fewer splits, hence is more anomalous
(the monotone convention used consistently below). -/
def scoreRow (forest : List ITree) (row : List ℚ) : ℚ :=
  (forest.map (fun t => pathLen t row)).sum / forest.length

/-- Ranking order for labeling: by score, ties broken by stable original
row order. -/
def sortKey (a b : ℕ × ℚ) : Prop := a.2 < b.2 ∨ (a.2 = b.2 ∧ a.1 ≤ b.1)

instance : DecidableRel sortKey := fun a b => by unfold sortKey; infer_instance

/-- Floor of a non-negative rational as a natural number, computably. -/
def natFloorQ (q : ℚ) : ℕ := q.num.toNat / q.den

/-- Modelled from the spec (4.4): rank all records by score and label the
`contamination` fraction with the most anomalous (lowest) scores as
`Anomaly`, the rest `Normal`; ties are broken by stable original row
order, and the integer count is the floor of `contamination * N`. -/
def labelScores (c : ℚ) (scores : List ℚ) : List String :=
  let n := scores.length
  let k := natFloorQ (c * n)
  let sorted := (List.insertionSort sortKey scores.enum).map Prod.fst
  let top := sorted.take k
  (List.range n).map (fun i => if top.contains i then anomalyLabel else normalLabel)

/-- Traverse a list with a fallible function, failing when any element
fails. -/
def optTraverse {α β : Type} (f : α → Option β) : List α → Option (List β)
  | [] => some []
  | a :: t =>
    match f a, optTraverse f t with
    | some b, some bs => some (b :: bs)
    | _, _ => none

/-- Extraction of `df[config.features]` as a numeric row-major matrix, as
the model consumes it: `none` when a configured feature column is absent,
too short, missing (NaN) or non-numeric at some row (sklearn raises on such
input). -/
def featureMatrix (cfg : Config) (df : DF) : Option (List (List ℚ)) :=
  optTraverse
    (fun i => optTraverse
      (fun f => ((getCol df f).bind (fun col => col.get? i)).bind cellNum)
      cfg.features)
    (List.range (numRows df))

/-- Detector object: configuration plus the mutable `self.model` slot that
`detect_anomalies` overwrites with the freshly fitted ensemble. -/
structure Detector where
  config : Config
  model : Option (List ITree)

/-- Errors of the detection step. -/
inductive DetectError where
  | insufficientData
  | invalidData
deriving DecidableEq

/-- Embedding of `NetworkAnomalyDetector.detect_anomalies`: fit a fresh
seeded isolation forest on `df[config.features]`, store it in the model
slot, append the string label column `anomaly` and the numeric column
`anomaly_score` to the table, and return both. The scorer is modelled from
the spec (4.4), including its `InsufficientDataError` failure on a table of
fewer than 2 records; `invalidData` models sklearn raising on missing or
non-numeric feature data. -/
def detect_anomalies (d : Detector) (df : DF) : Except DetectError (Detector × DF) :=
  if numRows df < 2 then .error .insufficientData
  else
    match featureMatrix d.config df with
    | none => .error .invalidData
    | some m =>
      let forest := buildForest d.config m
      let scores := m.map (scoreRow forest)
      let labels := labelScores d.config.contamination scores
      let df1 := setCol df anomalyCol (labels.map Cell.str)
      let df2 := setCol df1 scoreCol (scores.map Cell.num)
      .ok ({ config := d.config, model := some forest }, df2)

/-- Number of records labeled `Anomaly` in a scored table. -/
def countAnomaly (df : DF) : ℕ :=
  ((getCol df anomalyCol).getD []).count (Cell.str anomalyLabel)

/-! Synthetic traffic generator, `generate_sample_data.py`. -/

/-- The declared parameters of `generate_sample_data` in
`generate_sample_data.py`: there is no seed parameter. -/
def generate_sample_data_params : List String :=
  ["start_date", "duration_hours", "output_file"]

/-- The seed computation of `generate_sample_data`:
`int(time.time() * 1000) % 2**32`, a pure function of the wall-clock
time (in milliseconds) at the moment of the call. -/
def current_seed (time_ms : ℕ) : ℕ := time_ms % 4294967296

/-- Deterministic skeleton of the generated dataset: the seed fed to the
numpy PRNG, the start of the timestamp range, and the record counts. Every
cell of the generated table is a draw from numpy's global PRNG seeded with
`seed`, so the full table is a function of this skeleton. -/
structure GenResult where
  seed : ℕ
  start : ℕ
  total_records : ℕ
  n_normal : ℕ
  n_anomalous : ℕ
  anomaly_sizes : List ℕ
deriving DecidableEq

/-- Embedding of `generate_sample_data(start_date, duration_hours,
output_file)`: seeds numpy from the wall clock (`current_seed`), defaults
`start_date` to the current time when absent, emits one record per minute
(85 percent normal, the rest split across the three anomaly archetypes with
the remainder spread over the first entries). The wall-clock time of the
call is an explicit input of the embedding because the source reads it. -/
def generate_sample_data (start_date : Option ℕ) (duration_hours : ℕ)
    (time_ms : ℕ) : GenResult :=
  let seed := current_seed time_ms
  let total := duration_hours * 60
  let n_normal := total * 85 / 100
  let n_anom := total - n_normal
  let e := n_anom / 3
  let r := n_anom % 3
  { seed := seed
    start := start_date.getD time_ms
    total_records := total
    n_normal := n_normal
    n_anomalous := n_anom
    anomaly_sizes := [e + (if 1 ≤ r then 1 else 0), e + (if 2 ≤ r then 1 else 0), e] }

/-! Claim C5: configuration loading. -/

/-- C5 counterexample: a config source that is present but unparseable makes
`load_config` raise (the `json.JSONDecodeError` of `json.load` is not caught:
only `FileNotFoundError` is), contradicting the claim that loading never
raises for absent-or-unparseable sources. -/
theorem load_config_unparseable_raises :
    load_config ConfigSource.unparseable = Except.error ("JSONDecodeError") := rfl

/-- C5 (amended): when the config file is absent, `load_config` returns the
documented defaults (three placeholder feature names, contamination 0.05,
100 estimators, seed 42) and only a non-fatal warning; but when the file is
present and unparseable, the `JSONDecodeError` propagates as an error; a
parseable file is returned as-is without warning. -/
theorem load_config_amended :
    load_config ConfigSource.absent = Except.ok (default_config, true) ∧
    default_config.features = ["feature1", "feature2", "feature3"] ∧
    default_config.contamination = 1 / 20 ∧
    default_config.n_estimators = 100 ∧
    default_config.random_state = 42 ∧
    load_config ConfigSource.unparseable = Except.error ("JSONDecodeError") ∧
    (∀ c, load_config (ConfigSource.parsed c) = Except.ok (c, false)) :=
  ⟨rfl, rfl, rfl, rfl, rfl, rfl, fun _ => rfl⟩

/-! Claim C3: the synthetic traffic generator and seeding. -/

/-- C3 counterexample: `generate_sample_data` has no seed parameter of any
kind, and two invocations with identical arguments at different wall-clock
times produce different outputs (already different seeds), so the generator
does not accept an explicit random seed. -/
theorem generate_sample_data_no_seed_param :
    ("seed" ∉ generate_sample_data_params ∧
     "random_seed" ∉ generate_sample_data_params ∧
     "random_state" ∉ generate_sample_data_params) ∧
    generate_sample_data (some 0) 24 0 ≠ generate_sample_data (some 0) 24 1 := by
  refine ⟨⟨by decide, by decide, by decide⟩, ?_⟩
  decide

/-- C3 (amended): the generator seeds numpy from the wall clock instead of
accepting a seed parameter; its output is a function of the wall-clock-derived
seed together with the explicit start date and duration, so two invocations
whose wall-clock milliseconds agree modulo 2^32 (in particular, at the same
instant) with the same start date and duration produce identical tables,
while invocations at different times generally do not. -/
theorem generate_sample_data_wall_clock (d dh t t' : ℕ)
    (h : current_seed t = current_seed t') :
    generate_sample_data (some d) dh t = generate_sample_data (some d) dh t' := by
  simp [generate_sample_data, h]

/-- Witness for the amended C3 theorem at concrete times 5 and 2^32 + 5. -/
theorem generate_sample_data_wall_clock_witness :
    current_seed 5 = current_seed 4294967301 ∧
    generate_sample_data (some 0) 24 5 = generate_sample_data (some 0) 24 4294967301 :=
  ⟨by decide, generate_sample_data_wall_clock 0 24 5 4294967301 (by decide)⟩

/-! Claim C6: insufficient data. -/

/-- C6: a table with fewer than 2 records makes anomaly detection fail with
`InsufficientDataError`, producing no scores or labels (the scorer is
modelled from the spec, section 4.4, as the sklearn model is external to the
repository). -/
theorem detect_anomalies_insufficient_data (d : Detector) (df : DF)
    (h : numRows df < 2) :
    detect_anomalies d df = Except.error DetectError.insufficientData := by
  unfold detect_anomalies
  simp [h]

/-- Witness for C6 on a concrete one-record table. -/
theorem detect_anomalies_insufficient_data_witness :
    numRows [(("f1" : String), [Cell.num 1])] < 2 ∧
    detect_anomalies ⟨default_config, none⟩ [(("f1" : String), [Cell.num 1])] =
      Except.error DetectError.insufficientData :=
  ⟨by decide, detect_anomalies_insufficient_data ⟨default_config, none⟩ _ (by decide)⟩

/-! Claim C8: validation of required features. -/

/-- C8: validation fails exactly when some configured feature is not a column
of the table, and the raised error carries precisely the set of missing
feature names. -/
theorem validate_data_missing_features (cfg : Config) (df : DF) :
    ((∃ e, validate_data cfg df = Except.error e) ↔
      ∃ f ∈ cfg.features, f ∉ colNames df) ∧
    (∀ e, validate_data cfg df = Except.error e →
      ∀ f, f ∈ e ↔ (f ∈ cfg.features ∧ f ∉ colNames df)) := by
  unfold validate_data
  by_cases hemp : (cfg.features.filter (fun f => decide (f ∉ colNames df))).isEmpty
  · rw [List.isEmpty_iff] at hemp
    constructor
    · simp only [hemp, List.isEmpty_nil, if_true]
      constructor
      · rintro ⟨e, he⟩
        exact absurd he (by simp)
      · rintro ⟨f, hf, hnf⟩
        have : f ∈ cfg.features.filter (fun f => decide (f ∉ colNames df)) := by
          simp [List.mem_filter, hf, hnf]
        rw [hemp] at this
        exact absurd this (List.not_mem_nil f)
    · intro e he
      rw [hemp] at he
      simp at he
  · have hne : ¬(cfg.features.filter (fun f => decide (f ∉ colNames df))).isEmpty = true := hemp
    constructor
    · simp only [hne, if_false]
      constructor
      · rintro ⟨e, he⟩
        have he' : e = cfg.features.filter (fun f => decide (f ∉ colNames df)) := by
          cases he
          rfl
        subst he'
        rw [List.isEmpty_iff] at hne
        rcases List.exists_mem_of_ne_nil _ hne with ⟨f, hf⟩
        rw [List.mem_filter] at hf
        exact ⟨f, hf.1, by simpa using hf.2⟩
      · intro _
        exact ⟨cfg.features.filter (fun f => decide (f ∉ colNames df)), by simp⟩
    · intro e he
      simp only [hne, if_false] at he
      have he' : e = cfg.features.filter (fun f => decide (f ∉ colNames df)) := by
        cases he
        rfl
      subst he'
      intro f
      rw [List.mem_filter]
      simp

/-- Witness for C8: a table missing exactly the configured feature `b` fails
reporting exactly `b`. -/
theorem validate_data_missing_features_witness :
    ∀ f, f ∈ ["b"] ↔
      (f ∈ (["a", "b"] : List String) ∧ f ∉ colNames [(("a" : String), ([] : List Cell))]) :=
  (validate_data_missing_features
    { features := ["a", "b"], contamination := 1 / 20,
      n_estimators := 100, random_state := 42 }
    [(("a" : String), ([] : List Cell))]).2 ["b"] (by rfl)

/-! Helper lemmas about column access and per-column table rewrites. -/

/-- Column lookup through a map that renames nothing and rewrites each
column as a function of its name and content. -/
theorem getCol_map_col (φ : String → List Cell → List Cell) (df : DF) (c : String) :
    getCol (df.map (fun p => (p.1, φ p.1 p.2))) c = (getCol df c).map (φ c) := by
  unfold getCol
  rw [List.find?_map]
  have hpred : ((fun q : String × List Cell => decide (q.1 = c)) ∘
      (fun p : String × List Cell => (p.1, φ p.1 p.2))) =
      (fun p : String × List Cell => decide (p.1 = c)) := rfl
  rw [hpred]
  rcases h : List.find? (fun p : String × List Cell => decide (p.1 = c)) df with _ | p
  · rfl
  · have hp : p.1 = c := by simpa using List.find?_some h
    simp only [Option.map_some, Option.map_map]
    show some (φ p.1 p.2) = some (φ c p.2)
    rw [hp]

/-- The table component of `_handle_missing_values` rewrites each feature
column through `fillCol` and keeps every other column as it is. -/
theorem handle_missing_values_fst (cfg : Config) (df : DF) :
    (handle_missing_values cfg df).1 =
      df.map (fun p => (p.1, if p.1 ∈ cfg.features then fillCol p.2 else p.2)) := by
  unfold handle_missing_values
  exact List.map_congr_left (fun p _ => by by_cases h : p.1 ∈ cfg.features <;> simp [h])

/-- A successful `_scale_features` rewrites each feature column through
`scaleColumn` and keeps every other column as it is. -/
theorem scale_features_ok (cfg : Config) (sigmas : String → ℚ) (df : DF) (out : DF)
    (h : scale_features cfg sigmas df = Except.ok out) :
    out = df.map (fun p =>
      (p.1, if p.1 ∈ cfg.features then
        (scaleColumn (presentVals p.2) (sigmas p.1)).map Cell.num
      else p.2)) := by
  unfold scale_features at h
  split at h
  · cases h
    exact List.map_congr_left (fun p _ => by by_cases hp : p.1 ∈ cfg.features <;> simp [hp])
  · cases h

/-- Column lookup after missing-value handling: a feature column is filled,
any other column is untouched. -/
theorem getCol_handle_missing (cfg : Config) (df : DF) (c : String) :
    getCol (handle_missing_values cfg df).1 c =
      (getCol df c).map (fun col => if c ∈ cfg.features then fillCol col else col) := by
  rw [handle_missing_values_fst]
  exact getCol_map_col (fun n col => if n ∈ cfg.features then fillCol col else col) df c

/-- Column lookup after successful scaling: a feature column is scaled,
any other column is untouched. -/
theorem getCol_scale_features (cfg : Config) (sigmas : String → ℚ) (df : DF) (out : DF)
    (h : scale_features cfg sigmas df = Except.ok out) (c : String) :
    getCol out c = (getCol df c).map (fun col =>
      if c ∈ cfg.features then (scaleColumn (presentVals col) (sigmas c)).map Cell.num
      else col) := by
  rw [scale_features_ok cfg sigmas df out h]
  exact getCol_map_col
    (fun n col => if n ∈ cfg.features then (scaleColumn (presentVals col) (sigmas n)).map Cell.num
      else col) df c

/-! Claim C9: preprocessing only touches the configured feature columns. -/

/-- C9: both missing-value handling and feature scaling leave every column
that is not a configured feature exactly as it was. -/
theorem preprocessing_frame (cfg : Config) (sigmas : String → ℚ) (df : DF)
    (c : String) (hc : c ∉ cfg.features) :
    getCol (handle_missing_values cfg df).1 c = getCol df c ∧
    ∀ out, scale_features cfg sigmas df = Except.ok out → getCol out c = getCol df c := by
  constructor
  · rw [getCol_handle_missing]
    cases getCol df c <;> simp [hc]
  · intro out h
    rw [getCol_scale_features cfg sigmas df out h]
    cases getCol df c <;> simp [hc]

/-- Witness for C9 on a table with a `protocol` column next to the single
configured feature. -/
theorem preprocessing_frame_witness :
    getCol (handle_missing_values
      { features := ["f1"], contamination := 1 / 20, n_estimators := 100, random_state := 42 }
      [(("f1" : String), [Cell.num 1, Cell.num 2]),
       (("protocol" : String), [Cell.str ("TCP"), Cell.str ("UDP")])]).1 ("protocol") =
    getCol [(("f1" : String), [Cell.num 1, Cell.num 2]),
       (("protocol" : String), [Cell.str ("TCP"), Cell.str ("UDP")])] ("protocol") :=
  (preprocessing_frame _ (fun _ => 1) _ ("protocol") (by decide)).1

/-! Claim C4: missing-value handling. -/

/-- Configuration used by the C4 example tables. -/
def cfgC4 : Config :=
  { features := ["f1"], contamination := 1 / 20, n_estimators := 100, random_state := 42 }

/-- C4 counterexample: on a feature column that is entirely missing,
`fillna(mean)` fills nothing, because the mean of an all-NaN column is NaN;
the column stays entirely missing instead of becoming all zeros as claimed. -/
theorem handle_missing_all_missing_not_zero_imputed :
    getCol (handle_missing_values cfgC4 [(("f1" : String), [Cell.na, Cell.na])]).1 ("f1") =
      some [Cell.na, Cell.na] ∧
    ([Cell.na, Cell.na] : List Cell) ≠ [Cell.num 0, Cell.num 0] := by
  exact ⟨by decide, by decide⟩

/-- C4 (amended): for every configured feature present in the table,
missing values are replaced by the arithmetic mean of that feature's present
values, other cells are untouched, and a non-fatal warning is signalled
exactly when some configured feature has a missing value; but a feature
column with no present value at all is left entirely missing (pandas
`fillna` with a NaN mean fills nothing), not imputed with 0. -/
theorem handle_missing_values_mean_imputation (cfg : Config) (df : DF) (f : String)
    (col : List Cell) (hf : f ∈ cfg.features) (hcol : getCol df f = some col) :
    getCol (handle_missing_values cfg df).1 f = some (fillCol col) ∧
    (presentVals col ≠ [] →
      fillCol col = col.map (fun c =>
        if c = Cell.na then Cell.num (listMean (presentVals col)) else c)) ∧
    (presentVals col = [] → fillCol col = col) ∧
    ((handle_missing_values cfg df).2 = true ↔
      ∃ g ∈ cfg.features, Cell.na ∈ (getCol df g).getD []) := by
  refine ⟨?_, ?_, ?_, ?_⟩
  · rw [getCol_handle_missing, hcol]
    simp [hf]
  · intro hne
    simp only [fillCol]
    rw [if_neg (by simpa [List.isEmpty_iff] using hne)]
  · intro he
    simp [fillCol, he]
  · unfold handle_missing_values
    simp [List.any_eq_true]

/-- Witness for the amended C4 theorem on a column with one missing value
among two present ones. -/
theorem handle_missing_values_mean_imputation_witness :
    getCol (handle_missing_values cfgC4
        [(("f1" : String), [Cell.num 2, Cell.na, Cell.num 4])]).1 ("f1") =
      some (fillCol [Cell.num 2, Cell.na, Cell.num 4]) ∧
    fillCol [Cell.num 2, Cell.na, Cell.num 4] =
      [Cell.num 2, Cell.na, Cell.num 4].map (fun c =>
        if c = Cell.na then
          Cell.num (listMean (presentVals [Cell.num 2, Cell.na, Cell.num 4]))
        else c) := by
  have h := handle_missing_values_mean_imputation cfgC4
      [(("f1" : String), [Cell.num 2, Cell.na, Cell.num 4])] ("f1")
      [Cell.num 2, Cell.na, Cell.num 4] (by decide) (by rfl)
  exact ⟨h.1, h.2.1 (by decide)⟩

/-! Claim C7: standardization. -/

/-- Sum after subtracting a constant from every element. -/
theorem sum_map_sub (xs : List ℚ) (c : ℚ) :
    (xs.map (fun x => x - c)).sum = xs.sum - xs.length * c := by
  induction xs with
  | nil => simp
  | cons a t ih =>
    simp only [List.map_cons, List.sum_cons, ih, List.length_cons]
    push_cast
    ring

/-- Centering a list at its mean makes its sum zero. -/
theorem sum_map_sub_mean (xs : List ℚ) :
    (xs.map (fun x => x - listMean xs)).sum = 0 := by
  rcases eq_or_ne xs [] with h | h
  · subst h; simp
  · have hn : (xs.length : ℚ) ≠ 0 :=
      Nat.cast_ne_zero.mpr (fun hl => h (List.length_eq_zero.mp hl))
    rw [sum_map_sub]
    unfold listMean
    field_simp

/-- Sum after dividing every element by a constant. -/
theorem sum_map_div (xs : List ℚ) (s : ℚ) :
    (xs.map (fun x => x / s)).sum = xs.sum / s := by
  induction xs with
  | nil => simp
  | cons a t ih =>
    simp only [List.map_cons, List.sum_cons, ih]
    ring

/-- A list of non-negative rationals with zero sum is all zeros. -/
theorem sum_eq_zero_of_nonneg (l : List ℚ) (hpos : ∀ x ∈ l, 0 ≤ x) (h : l.sum = 0) :
    ∀ x ∈ l, x = 0 := by
  induction l with
  | nil => simp
  | cons a t ih =>
    have ha : 0 ≤ a := hpos a (List.mem_cons_self a t)
    have ht : 0 ≤ t.sum := List.sum_nonneg (fun x hx => hpos x (List.mem_cons_of_mem a hx))
    have hsum : a + t.sum = 0 := by simpa using h
    have h0 := (add_eq_zero_iff_of_nonneg ha ht).mp hsum
    intro x hx
    rcases List.mem_cons.mp hx with rfl | hx
    · exact h0.1
    · exact ih (fun y hy => hpos y (List.mem_cons_of_mem a hy)) h0.2 x hx

/-- A column with zero population variance is constant: every value equals
the mean. -/
theorem eq_mean_of_pvariance_zero (xs : List ℚ) (h : pvariance xs = 0) :
    ∀ x ∈ xs, x = listMean xs := by
  intro x hx
  have hne : xs ≠ [] := by rintro rfl; simp at hx
  have hn : (xs.length : ℚ) ≠ 0 :=
    Nat.cast_ne_zero.mpr (fun hl => hne (List.length_eq_zero.mp hl))
  have hsum : (xs.map (fun x => (x - listMean xs) ^ 2)).sum = 0 := by
    unfold pvariance listMean at h
    rw [List.length_map] at h
    rcases div_eq_zero_iff.mp h with h' | h'
    · exact h'
    · exact absurd h' hn
  have hall := sum_eq_zero_of_nonneg _
    (fun y hy => by
      rcases List.mem_map.mp hy with ⟨z, _, rfl⟩
      exact sq_nonneg _) hsum
  have hx2 : (x - listMean xs) ^ 2 = 0 := hall _ (List.mem_map_of_mem _ hx)
  have := (pow_eq_zero_iff (two_ne_zero)).mp hx2
  linarith [this]

/-- Unfolded form of `scaleColumn`. -/
theorem scaleColumn_eq (xs : List ℚ) (s : ℚ) :
    scaleColumn xs s =
      (xs.map (fun x => x - listMean xs)).map (fun y => y / (if s = 0 then 1 else s)) := by
  show xs.map (fun x => (x - listMean xs) / (if s = 0 then 1 else s)) = _
  rw [List.map_map]
  rfl

/-- Mean of a scaled column is always zero (for any scale). -/
theorem listMean_scaleColumn (xs : List ℚ) (s : ℚ) :
    listMean (scaleColumn xs s) = 0 := by
  rw [scaleColumn_eq]
  show ((xs.map (fun x => x - listMean xs)).map
      (fun y => y / (if s = 0 then 1 else s))).sum / _ = 0
  rw [sum_map_div, sum_map_sub_mean]
  simp

/-- C7: after standardization, a configured feature column has mean 0 and
population variance 1 (hence standard deviation 1), except that a constant
column (zero variance) is mapped to all zeros rather than failing by
division by zero. The scale `s` is the exact value of the float
`sqrt(variance)` computed by sklearn StandardScaler. -/
theorem scale_features_standardizes (xs : List ℚ) (s : ℚ) (hs : 0 ≤ s)
    (hvar : s ^ 2 = pvariance xs) :
    (pvariance xs = 0 → scaleColumn xs s = xs.map (fun _ => 0)) ∧
    (pvariance xs ≠ 0 →
      listMean (scaleColumn xs s) = 0 ∧ pvariance (scaleColumn xs s) = 1) := by
  constructor
  · intro h0
    have hs0 : s = 0 := by
      have h2 : s ^ 2 = 0 := by rw [hvar, h0]
      exact (pow_eq_zero_iff (two_ne_zero)).mp h2
    subst hs0
    rw [scaleColumn_eq, List.map_map]
    exact List.map_congr_left (fun x hx => by
      show (x - listMean xs) / (if (0 : ℚ) = 0 then 1 else 0) = 0
      rw [eq_mean_of_pvariance_zero xs h0 x hx]
      simp)
  · intro h0
    have hsne : s ≠ 0 := fun h => h0 (by rw [← hvar, h]; ring)
    refine ⟨listMean_scaleColumn xs s, ?_⟩
    have hxs : xs ≠ [] := by
      rintro rfl
      exact h0 (by simp [pvariance, listMean])
    have hn : (xs.length : ℚ) ≠ 0 :=
      Nat.cast_ne_zero.mpr (fun hl => hxs (List.length_eq_zero.mp hl))
    have hmean := listMean_scaleColumn xs s
    unfold pvariance
    rw [hmean]
    have hsq : (scaleColumn xs s).map (fun y => (y - 0) ^ 2) =
        (xs.map (fun x => (x - listMean xs) ^ 2)).map (fun y => y / s ^ 2) := by
      rw [scaleColumn_eq, if_neg hsne, List.map_map, List.map_map, List.map_map]
      exact List.map_congr_left (fun x _ => by
        show ((x - listMean xs) / s - 0) ^ 2 = (x - listMean xs) ^ 2 / s ^ 2
        rw [sub_zero, div_pow])
    have hS : (xs.map (fun x => (x - listMean xs) ^ 2)).sum = s ^ 2 * xs.length := by
      have hp : pvariance xs = (xs.map (fun x => (x - listMean xs) ^ 2)).sum / xs.length := by
        show listMean _ = _
        unfold listMean
        rw [List.length_map]
      have hv := hvar.trans hp
      field_simp at hv
      linarith [hv]
    rw [hsq]
    show ((xs.map (fun x => (x - listMean xs) ^ 2)).map (fun y => y / s ^ 2)).sum / _ = 1
    rw [sum_map_div, hS, List.length_map, List.length_map]
    have hs2 : s ^ 2 ≠ 0 := pow_ne_zero 2 hsne
    field_simp

/-- Witness for C7 on the concrete column `[0, 2]` with scale 1. -/
theorem scale_features_standardizes_witness :
    (0 : ℚ) ≤ 1 ∧ (1 : ℚ) ^ 2 = pvariance [0, 2] ∧
    listMean (scaleColumn [0, 2] 1) = 0 ∧ pvariance (scaleColumn [0, 2] 1) = 1 := by
  have h1 : (1 : ℚ) ^ 2 = pvariance [0, 2] := by
    simp [pvariance, listMean]
    norm_num
  have h := (scale_features_standardizes [0, 2] 1 (by norm_num) h1).2 (by rw [← h1]; norm_num)
  exact ⟨by norm_num, h1, h⟩

/-! Helper lemmas about column assignment. -/

/-- In-place column replacement is a per-column rewrite that keeps names. -/
theorem setCol_replace_eq (df : DF) (c : String) (col : List Cell) :
    df.map (fun p => if p.1 = c then (c, col) else p) =
      df.map (fun p => (p.1, if p.1 = c then col else p.2)) :=
  List.map_congr_left (fun p _ => by by_cases hp : p.1 = c <;> simp [hp])

/-- Column lookup when a column was replaced in place. -/
theorem getCol_setCol_replace (df : DF) (c : String) (col : List Cell) (c' : String) :
    getCol (df.map (fun p => if p.1 = c then (c, col) else p)) c' =
      (getCol df c').map (fun colx => if c' = c then col else colx) := by
  rw [setCol_replace_eq]
  exact getCol_map_col (fun n colx => if n = c then col else colx) df c'

/-- An existing column has some content. -/
theorem getCol_isSome_of_any (df : DF) (c : String)
    (h : df.any (fun p => decide (p.1 = c)) = true) :
    ∃ colx, getCol df c = some colx := by
  induction df with
  | nil => simp at h
  | cons q t ih =>
    by_cases hq : q.1 = c
    · exact ⟨q.2, by simp [getCol, List.find?, hq]⟩
    · have ht : t.any (fun p => decide (p.1 = c)) = true := by
        simpa [List.any_cons, hq] using h
      rcases ih ht with ⟨colx, hcolx⟩
      refine ⟨colx, ?_⟩
      unfold getCol at hcolx ⊢
      simpa [List.find?, hq] using hcolx

/-- Assigned column reads back as assigned. -/
theorem getCol_setCol_self (df : DF) (c : String) (col : List Cell) :
    getCol (setCol df c col) c = some col := by
  unfold setCol
  by_cases h : df.any (fun p => decide (p.1 = c)) = true
  · rw [if_pos h, getCol_setCol_replace]
    rcases getCol_isSome_of_any df c h with ⟨colx, hcolx⟩
    rw [hcolx]
    simp
  · rw [if_neg h]
    unfold getCol
    rw [List.find?_append]
    have hnone : List.find? (fun p : String × List Cell => decide (p.1 = c)) df = none := by
      rw [List.find?_eq_none]
      intro x hx
      simp only [decide_eq_true_eq]
      intro hxc
      exact h (List.any_eq_true.mpr ⟨x, hx, by simpa using hxc⟩)
    rw [hnone]
    simp [List.find?]

/-- Assigning one column does not change any other column. -/
theorem getCol_setCol_ne (df : DF) (c c' : String) (col : List Cell) (h : c ≠ c') :
    getCol (setCol df c col) c' = getCol df c' := by
  unfold setCol
  by_cases hb : df.any (fun p => decide (p.1 = c)) = true
  · rw [if_pos hb, getCol_setCol_replace]
    have h' : ¬(c' = c) := fun hx => h hx.symm
    cases getCol df c' <;> simp [h']
  · rw [if_neg hb]
    unfold getCol
    rw [List.find?_append]
    have hsingle : List.find? (fun p : String × List Cell => decide (p.1 = c')) [(c, col)] =
        none := by
      simp [List.find?, h]
    rw [hsingle, Option.or_none]

/-- Assigning a fresh column appends its name at the end. -/
theorem colNames_setCol_not_mem (df : DF) (c : String) (col : List Cell)
    (h : c ∉ colNames df) :
    colNames (setCol df c col) = colNames df ++ [c] := by
  unfold setCol
  have hany : ¬df.any (fun p => decide (p.1 = c)) = true := by
    rw [List.any_eq_true]
    rintro ⟨p, hp, hpc⟩
    exact h (List.mem_map.mpr ⟨p, hp, by simpa using hpc⟩)
  rw [if_neg hany]
  simp [colNames]

/-- Traversal with a fallible function preserves length. -/
theorem optTraverse_length {α β : Type} (f : α → Option β) (l : List α) (r : List β)
    (h : optTraverse f l = some r) : r.length = l.length := by
  induction l generalizing r with
  | nil =>
    simp only [optTraverse] at h
    cases h
    rfl
  | cons a t ih =>
    simp only [optTraverse] at h
    cases hfa : f a with
    | none => rw [hfa] at h; cases h
    | some b =>
      cases hft : optTraverse f t with
      | none => rw [hfa, hft] at h; cases h
      | some bs =>
        rw [hfa, hft] at h
        cases h
        simp [ih bs hft]

/-- Counting, over a duplicate-free list, the elements of a duplicate-free
subset yields the subset's size. -/
theorem countP_mem_nodup (t r : List ℕ) (ht : t.Nodup) (hr : r.Nodup)
    (hsub : ∀ x ∈ t, x ∈ r) :
    r.countP (fun x => t.contains x) = t.length := by
  rw [List.countP_eq_length_filter]
  have hft : (r.filter (fun x => t.contains x)).Nodup := hr.filter _
  have hset : (r.filter (fun x => t.contains x)).toFinset = t.toFinset := by
    ext x
    simp only [List.mem_toFinset, List.mem_filter]
    constructor
    · rintro ⟨_, hxt⟩
      simpa using hxt
    · intro hxt
      exact ⟨hsub x hxt, by simpa using hxt⟩
  have hcard := congrArg Finset.card hset
  rwa [List.toFinset_card_of_nodup hft, List.toFinset_card_of_nodup ht] at hcard

/-- Unfolded form of `labelScores`. -/
theorem labelScores_eq (c : ℚ) (scores : List ℚ) :
    labelScores c scores =
      (List.range scores.length).map (fun i =>
        if ((List.insertionSort sortKey scores.enum).map Prod.fst).take
            (natFloorQ (c * scores.length)) |>.contains i
        then anomalyLabel else normalLabel) := rfl

/-- The ranked index list used by `labelScores` is a permutation of the row
indices. -/
theorem labelScores_perm (scores : List ℚ) :
    ((List.insertionSort sortKey scores.enum).map Prod.fst).Perm
      (List.range scores.length) := by
  have h1 := (List.perm_insertionSort sortKey scores.enum).map Prod.fst
  rwa [List.enum_map_fst] at h1

/-- Exactly `floor (c * N)` rows are labeled `Anomaly` (when that count does
not exceed the number of rows). -/
theorem labelScores_count (c : ℚ) (scores : List ℚ)
    (hk : natFloorQ (c * scores.length) ≤ scores.length) :
    (labelScores c scores).count anomalyLabel = natFloorQ (c * scores.length) := by
  rw [labelScores_eq, List.count_eq_countP, List.countP_map]
  set idx := (List.insertionSort sortKey scores.enum).map Prod.fst with hidx
  set k := natFloorQ (c * scores.length) with hkdef
  have hperm := labelScores_perm scores
  have hnodup : idx.Nodup := hperm.nodup_iff.mpr (List.nodup_range _)
  have htop : (idx.take k).Nodup := (List.take_sublist k idx).nodup hnodup
  have hsub : ∀ x ∈ idx.take k, x ∈ List.range scores.length := fun x hx =>
    hperm.mem_iff.mp (List.take_subset k idx hx)
  have hlen : (idx.take k).length = k := by
    rw [List.length_take, hidx]
    rw [List.length_map, List.length_insertionSort, List.enum_length]
    exact min_eq_left hk
  have hfun : ((fun x => x == anomalyLabel) ∘
      (fun i => if (idx.take k).contains i then anomalyLabel else normalLabel)) =
      (fun i => (idx.take k).contains i) := by
    funext i
    cases hci : (idx.take k).contains i
    · show ((if ((idx.take k).contains i) = true then anomalyLabel else normalLabel) ==
        anomalyLabel) = false
      rw [hci]
      simp only [Bool.false_eq_true, if_false]
      decide
    · show ((if ((idx.take k).contains i) = true then anomalyLabel else normalLabel) ==
        anomalyLabel) = true
      rw [hci]
      simp
  rw [hfun, countP_mem_nodup (idx.take k) (List.range scores.length) htop
    (List.nodup_range _) hsub, hlen]

/-- Every label produced by `labelScores` is `Anomaly` or `Normal`. -/
theorem labelScores_mem (c : ℚ) (scores : List ℚ) :
    ∀ l ∈ labelScores c scores, l = anomalyLabel ∨ l = normalLabel := by
  intro l hl
  rw [labelScores_eq] at hl
  rcases List.mem_map.mp hl with ⟨i, _, rfl⟩
  cases hci : ((List.insertionSort sortKey scores.enum).map Prod.fst).take
      (natFloorQ (c * scores.length)) |>.contains i
  · simp [hci]
  · simp [hci]

/-- The computable floor `natFloorQ` agrees with the mathematical floor on
non-negative rationals. -/
theorem natFloorQ_eq_floor (q : ℚ) (hq : 0 ≤ q) : natFloorQ q = ⌊q⌋₊ := by
  have hD : (0 : ℚ) < (q.den : ℚ) := by exact_mod_cast q.den_pos
  have hnum : ((q.num.toNat : ℤ)) = q.num := Int.toNat_of_nonneg (Rat.num_nonneg.mpr hq)
  have hqND : q = (q.num.toNat : ℚ) / (q.den : ℚ) := by
    conv_lhs => rw [← Rat.num_div_den q, ← hnum]
    push_cast
    ring
  symm
  rw [Nat.floor_eq_iff hq]
  set nn := natFloorQ q with hnn
  constructor
  · rw [hqND, le_div_iff₀ hD]
    show (nn : ℚ) * q.den ≤ q.num.toNat
    rw [hnn]
    unfold natFloorQ
    exact_mod_cast Nat.div_mul_le_self q.num.toNat q.den
  · rw [hqND, div_lt_iff₀ hD]
    have hnat : q.num.toNat < (nn + 1) * q.den := by
      rw [hnn]
      unfold natFloorQ
      calc q.num.toNat = q.den * (q.num.toNat / q.den) + q.num.toNat % q.den :=
            (Nat.div_add_mod _ _).symm
        _ < q.den * (q.num.toNat / q.den) + q.den := by
            have := Nat.mod_lt q.num.toNat q.den_pos
            omega
        _ = (q.num.toNat / q.den + 1) * q.den := by ring
    exact_mod_cast hnat

/-- Dissection of a successful run of `detect_anomalies`. -/
theorem detect_anomalies_ok_elim (d : Detector) (df : DF) (d1 : Detector) (out : DF)
    (h : detect_anomalies d df = Except.ok (d1, out)) :
    ∃ m, featureMatrix d.config df = some m ∧
      ¬numRows df < 2 ∧
      d1 = { config := d.config, model := some (buildForest d.config m) } ∧
      out = setCol
        (setCol df anomalyCol
          ((labelScores d.config.contamination
            (m.map (scoreRow (buildForest d.config m)))).map Cell.str))
        scoreCol ((m.map (scoreRow (buildForest d.config m))).map Cell.num) := by
  unfold detect_anomalies at h
  split at h
  · cases h
  · next hge =>
    split at h
    · cases h
    · next m hm =>
      simp only [Except.ok.injEq, Prod.mk.injEq] at h
      exact ⟨m, hm, hge, h.1.symm, h.2.symm⟩

/-! Claim C2: determinism of detection. -/

/-- The result table of `detect_anomalies` does not depend on the model slot
of the detector object, only on its configuration and the input table. -/
theorem detect_anomalies_config_only (cfg : Config) (m1 m2 : Option (List ITree)) (df : DF) :
    (detect_anomalies ⟨cfg, m1⟩ df).map Prod.snd =
      (detect_anomalies ⟨cfg, m2⟩ df).map Prod.snd := rfl

/-- C2: running detection twice over the same table with the same
configuration (same seed, contamination, ensemble size and features) yields
the identical scored and labeled table: the second run, on the detector
state left by the first run, reproduces the first run's output exactly. -/
theorem detect_anomalies_deterministic (cfg : Config) (m0 : Option (List ITree)) (df : DF)
    (d1 : Detector) (out : DF)
    (h : detect_anomalies ⟨cfg, m0⟩ df = Except.ok (d1, out)) :
    (detect_anomalies d1 df).map Prod.snd = Except.ok out := by
  obtain ⟨m, _, _, hd1, _⟩ := detect_anomalies_ok_elim _ _ _ _ h
  have hc : d1.config = cfg := by rw [hd1]
  have heta : d1 = (⟨cfg, d1.model⟩ : Detector) := by rw [← hc]
  rw [heta, detect_anomalies_config_only cfg d1.model m0 df, h]
  rfl

/-! Claim C1: the contamination fraction of records is labeled Anomaly. -/

/-- C1: whenever detection succeeds under a valid contamination rate, the
number of records labeled `Anomaly` is exactly the floor of
`contamination * N` where `N` is the record count; in particular 50 of 1000
records at contamination 0.05. (Scorer and labeling modelled from the spec,
section 4.4.) -/
theorem detect_anomalies_contamination_count (d : Detector) (df : DF)
    (d1 : Detector) (out : DF)
    (hc0 : 0 < d.config.contamination) (hc1 : d.config.contamination ≤ 1 / 2)
    (h : detect_anomalies d df = Except.ok (d1, out)) :
    countAnomaly out = ⌊d.config.contamination * (numRows df : ℚ)⌋₊ := by
  obtain ⟨m, hm, _, _, hout⟩ := detect_anomalies_ok_elim d df d1 out h
  have hlen : m.length = numRows df := by
    unfold featureMatrix at hm
    exact (optTraverse_length _ _ _ hm).trans (List.length_range _)
  have hkn : natFloorQ (d.config.contamination * (numRows df : ℚ)) ≤ numRows df := by
    rw [natFloorQ_eq_floor _ (mul_nonneg hc0.le (Nat.cast_nonneg _))]
    calc ⌊d.config.contamination * (numRows df : ℚ)⌋₊
        ≤ ⌊((numRows df : ℚ))⌋₊ := by
          apply Nat.floor_le_floor
          have h1 : d.config.contamination ≤ 1 := hc1.trans (by norm_num)
          have h2 : d.config.contamination * (numRows df : ℚ) ≤ 1 * (numRows df : ℚ) :=
            mul_le_mul_of_nonneg_right h1 (Nat.cast_nonneg _)
          simpa using h2
      _ = numRows df := Nat.floor_natCast _
  subst hout
  unfold countAnomaly
  rw [getCol_setCol_ne _ _ _ _ (by decide : scoreCol ≠ anomalyCol), getCol_setCol_self]
  simp only [Option.getD_some]
  rw [List.count_map_of_injective _ Cell.str (fun a b hab => by injection hab)]
  rw [labelScores_count]
  · rw [List.length_map, hlen,
      natFloorQ_eq_floor _ (mul_nonneg hc0.le (Nat.cast_nonneg _))]
  · rw [List.length_map, hlen]
    exact hkn

/-! Claim C10: shape of the scored table. -/

/-- C10 (amended): when the input table does not already have columns named
`anomaly` or `anomaly_score`, a successful detection appends exactly those
two columns, in that order, removing none; and every value of the `anomaly`
column is one of the strings `Normal` and `Anomaly`. (A preexisting column
of either name would instead be overwritten in place, see the
counterexample.) -/
theorem detect_anomalies_appends_columns (d : Detector) (df : DF)
    (d1 : Detector) (out : DF)
    (h : detect_anomalies d df = Except.ok (d1, out))
    (ha : anomalyCol ∉ colNames df) (hs : scoreCol ∉ colNames df) :
    colNames out = colNames df ++ [anomalyCol, scoreCol] ∧
    ∀ col, getCol out anomalyCol = some col →
      ∀ x ∈ col, x = Cell.str normalLabel ∨ x = Cell.str anomalyLabel := by
  obtain ⟨m, hm, _, _, hout⟩ := detect_anomalies_ok_elim d df d1 out h
  subst hout
  constructor
  · rw [colNames_setCol_not_mem, colNames_setCol_not_mem df anomalyCol _ ha]
    · simp
    · rw [colNames_setCol_not_mem df anomalyCol _ ha]
      simp only [List.mem_append, List.mem_singleton]
      rintro (hmem | hmem)
      · exact hs hmem
      · exact absurd hmem (by decide)
  · intro col hcol x hx
    rw [getCol_setCol_ne _ _ _ _ (by decide : scoreCol ≠ anomalyCol),
      getCol_setCol_self] at hcol
    cases hcol
    rcases List.mem_map.mp hx with ⟨l, hl, rfl⟩
    rcases labelScores_mem _ _ l hl with h' | h'
    · exact Or.inr (by rw [h'])
    · exact Or.inl (by rw [h'])



/-! Concrete pipeline run used by the witnesses: one feature, two records,
contamination 1/2, one tree, seed 0. -/

/-- Configuration of the concrete witness run. -/
def cfgE : Config :=
  { features := ["f1"], contamination := 1 / 2, n_estimators := 1, random_state := 0 }

/-- Input table of the concrete witness run. -/
def dfE : DF := [(("f1" : String), [Cell.num 5, Cell.num 5])]

/-- Fresh detector for the concrete witness run. -/
def detE : Detector := ⟨cfgE, none⟩

/-- Detector state after the concrete witness run. -/
def fitE : Detector := ⟨cfgE, some [ITree.leaf 2]⟩

/-- Output table of the concrete witness run. -/
def outE : DF :=
  [(("f1" : String), [Cell.num 5, Cell.num 5]),
   (("anomaly" : String), [Cell.str anomalyLabel, Cell.str normalLabel]),
   (("anomaly_score" : String), [Cell.num 1, Cell.num 1])]

/-- Feature-matrix extraction on the witness table. -/
theorem evalE_matrix : featureMatrix cfgE dfE = some [[5], [5]] := rfl

set_option maxRecDepth 10000 in
/-- The seeded forest on the witness table: the two records share their
single feature value, so the root cannot split and the tree is one leaf. -/
theorem evalE_forest : buildForest cfgE [[5], [5]] = [ITree.leaf 2] := by
  norm_num [buildForest, buildForestAux, cfgE, ceilLog2, floorLog2Fuel,
    List.range_succ, List.range_zero, sampleIdx, lcgNext, List.eraseIdx,
    buildTree, listMinQ, listMaxQ, List.getD]

/-- Scores on the witness table: each record has path length
`0 + c(2) = 2 H(1) - 1 = 1` in the single-leaf tree. -/
theorem evalE_scores : ([[5], [5]] : List (List ℚ)).map (scoreRow [ITree.leaf 2]) = [1, 1] := by
  norm_num [scoreRow, pathLen, cFactor, harmonicQ]

/-- Labels on the witness table: `floor (1/2 * 2) = 1` record is labeled
anomalous, the tie broken towards the first row. -/
theorem evalE_labels :
    labelScores cfgE.contamination [1, 1] = [anomalyLabel, normalLabel] := by
  norm_num [labelScores, cfgE, natFloorQ, sortKey, List.insertionSort,
    List.orderedInsert, List.enum, List.enumFrom, List.range_succ, List.range_zero,
    Rat.num_one, Rat.den_one]

/-- Full evaluation of the concrete witness run. -/
theorem evalE_detect : detect_anomalies detE dfE = Except.ok (fitE, outE) := by
  have hfa : ("f1" : String) ≠ ("anomaly" : String) := by decide
  have hfs : ("f1" : String) ≠ ("anomaly_score" : String) := by decide
  have has : ("anomaly" : String) ≠ ("anomaly_score" : String) := by decide
  simp only [detect_anomalies, detE, evalE_matrix, evalE_forest, evalE_scores,
    evalE_labels, fitE, outE]
  norm_num [dfE, numRows, setCol, anomalyCol, scoreCol, List.any_cons, List.any_nil,
    hfa, hfs, has]
/-- Witness for C1: on the concrete run, exactly
`floor (contamination * N) = floor (1/2 * 2) = 1` record is labeled
`Anomaly`. -/
theorem detect_anomalies_contamination_count_witness :
    (0 : ℚ) < cfgE.contamination ∧ cfgE.contamination ≤ 1 / 2 ∧
    countAnomaly outE = ⌊cfgE.contamination * (numRows dfE : ℚ)⌋₊ ∧
    countAnomaly outE = 1 :=
  ⟨by norm_num [cfgE], by norm_num [cfgE],
   detect_anomalies_contamination_count detE dfE fitE outE
     (by norm_num [detE, cfgE]) (by norm_num [detE, cfgE]) evalE_detect,
   by decide⟩

/-- Witness for C2: rerunning detection on the detector state left by the
first concrete run reproduces the identical output table. -/
theorem detect_anomalies_deterministic_witness :
    (detect_anomalies fitE dfE).map Prod.snd = Except.ok outE :=
  detect_anomalies_deterministic cfgE none dfE fitE outE evalE_detect

/-- Witness for the amended C10: on the concrete run over a table without
`anomaly` or `anomaly_score` columns, exactly those two columns are appended
and every label is `Normal` or `Anomaly`. -/
theorem detect_anomalies_appends_columns_witness :
    (colNames outE = colNames dfE ++ [anomalyCol, scoreCol] ∧
      ∀ col, getCol outE anomalyCol = some col →
        ∀ x ∈ col, x = Cell.str normalLabel ∨ x = Cell.str anomalyLabel) ∧
    anomalyCol ∉ colNames dfE ∧ scoreCol ∉ colNames dfE :=
  ⟨detect_anomalies_appends_columns detE dfE fitE outE evalE_detect
      (by decide) (by decide),
    by decide, by decide⟩

/-- Witness table that already carries an `anomaly` column. -/
def dfE2 : DF :=
  [(("f1" : String), [Cell.num 5, Cell.num 5]),
   (("anomaly" : String), [Cell.str ("x"), Cell.str ("y")])]

/-- Evaluation of the concrete run over `dfE2`: the preexisting `anomaly`
column is overwritten in place, so the output has three columns, not four. -/
theorem evalE2_detect : detect_anomalies detE dfE2 = Except.ok (fitE, outE) := by
  have hfa : ("f1" : String) ≠ ("anomaly" : String) := by decide
  have hfs : ("f1" : String) ≠ ("anomaly_score" : String) := by decide
  have has : ("anomaly" : String) ≠ ("anomaly_score" : String) := by decide
  have hmatrix : featureMatrix cfgE dfE2 = some [[5], [5]] := rfl
  simp only [detect_anomalies, detE, hmatrix, evalE_forest, evalE_scores,
    evalE_labels, fitE, outE]
  norm_num [dfE2, numRows, setCol, anomalyCol, scoreCol, List.any_cons, List.any_nil,
    hfa, hfs, has]

/-- C10 counterexample: on a table that already has an `anomaly` column,
detection succeeds but does not append two columns: the existing column is
overwritten in place and only `anomaly_score` is appended, so the claim that
exactly two columns are always appended fails. -/
theorem detect_anomalies_overwrites_existing_column :
    detect_anomalies detE dfE2 = Except.ok (fitE, outE) ∧
    colNames outE ≠ colNames dfE2 ++ [anomalyCol, scoreCol] :=
  ⟨evalE2_detect, by decide⟩

end AIShield
